import Mathlib

/-!
Shallow embedding of `main.py` of the factorio-downloader repository:
a script that reconciles a locally recorded version against a requested
version (either the token "latest" or an explicit triple), and if a
download is needed fans out one authenticated HTTP download per platform,
writing a marker file `version.txt` after all downloads succeed.

File effects, HTTP responses and the progress sink are modelled
explicitly: the filesystem marker is an `Option String` (file content or
absent), every per-distro HTTP response is given by the `World`, and the
orchestrator produces an event trace recording resolver queries, the
marker deletion, HTTP GETs and the marker write, in program order.
-/

/-- Python exception kinds that can escape the modelled code:
`ValueError` (from `int()` and the explicit length check in
`FactorioVersion.from_str`), `IndexError` (from `split()[0]` on an empty
token list), the `aiohttp` error raised by `raise_for_status()` for a
non-success HTTP status, and the family of network/JSON/key errors that
`get_latest_version` can surface. -/
inductive PyError where
  | valueError (msg : String)
  | indexError
  | downloadError (status : Nat)
  | remoteQueryError
deriving DecidableEq, Repr

/-- ASCII decimal digit test, as used by Python `int()` on ASCII input. -/
def isDigitChar (ch : Char) : Bool :=
  48 ≤ ch.toNat && ch.toNat ≤ 57

/-- Numeric value of an ASCII digit character. -/
def digitVal (ch : Char) : Nat :=
  ch.toNat - 48

/-- The ASCII character of a decimal digit (`d ≥ 9` clamps to `'9'`;
only ever used with `d < 10`). -/
def digitChar (d : Nat) : Char :=
  if d = 0 then '0' else if d = 1 then '1' else if d = 2 then '2'
  else if d = 3 then '3' else if d = 4 then '4' else if d = 5 then '5'
  else if d = 6 then '6' else if d = 7 then '7' else if d = 8 then '8'
  else '9'

/-- Big-endian decimal digits of `n`, with explicit fuel so that the
recursion is structural (callers pass `fuel ≥ n`). -/
def natToDigitsAux : Nat → Nat → List Char
  | 0, _ => []
  | fuel + 1, n =>
    if n = 0 then [] else natToDigitsAux fuel (n / 10) ++ [digitChar (n % 10)]

/-- Decimal digit string of a natural number, as Python `str` prints it. -/
def natToDigitStr (n : Nat) : List Char :=
  if n = 0 then ['0'] else natToDigitsAux (n + 1) n

/-- Python `str(i)` for an `int`: optional leading minus sign followed by
the decimal digits of the absolute value. -/
def pyStrOfInt (i : Int) : String :=
  if i < 0 then ('-' :: natToDigitStr i.natAbs).asString
  else (natToDigitStr i.toNat).asString

/-- Value of a digit list read left to right in base 10. -/
def digitsToNat (l : List Char) : Nat :=
  l.foldl (fun acc ch => 10 * acc + digitVal ch) 0

/-- Digits after the first one in Python `int()` parsing: a single
underscore is permitted only between two digits. -/
def pyDigitsRest : List Char → Nat → Option Nat
  | [], acc => some acc
  | ch :: cs, acc =>
    if isDigitChar ch then pyDigitsRest cs (10 * acc + digitVal ch)
    else if ch = '_' then
      match cs with
      | [] => none
      | c2 :: cs2 =>
        if isDigitChar c2 then pyDigitsRest cs2 (10 * acc + digitVal c2) else none
    else none

/-- First digit of Python `int()` parsing: must be a plain digit. -/
def pyDigitsStart : List Char → Option Nat
  | [] => none
  | ch :: cs => if isDigitChar ch then pyDigitsRest cs (digitVal ch) else none

/-- Sign handling of Python `int()`: an optional single leading
`-` or `+` before the digits. -/
def pyIntOfChars : List Char → Option Int
  | [] => none
  | ch :: cs =>
    if ch = '-' then (pyDigitsStart cs).map (fun n => -(n : Int))
    else if ch = '+' then (pyDigitsStart cs).map (fun n => (n : Int))
    else (pyDigitsStart (ch :: cs)).map (fun n => (n : Int))

/-- Drop leading characters satisfying `Char.isWhitespace`. -/
def stripWs (l : List Char) : List Char :=
  ((l.dropWhile Char.isWhitespace).reverse.dropWhile Char.isWhitespace).reverse

/-- Python `int(s)` on ASCII input: surrounding whitespace is stripped,
then an optional sign and a nonempty digit sequence (underscores allowed
between digits) is parsed; `none` models the `ValueError` raise. -/
def pyInt (s : String) : Option Int :=
  pyIntOfChars (stripWs s.data)

/-- Python `s.split(".")`: fields between occurrences of `'.'`, keeping
empty fields (so the empty string yields one empty field). -/
def splitOnDot : List Char → List (List Char)
  | [] => [[]]
  | ch :: cs =>
    if ch = '.' then [] :: splitOnDot cs
    else
      match splitOnDot cs with
      | [] => [[ch]]
      | r :: rs => (ch :: r) :: rs

/-- Worker for `splitWs`, carrying the reversed current field. -/
def splitWsAux : List Char → List Char → List (List Char)
  | [], acc => if acc = [] then [] else [acc.reverse]
  | ch :: cs, acc =>
    if ch.isWhitespace then
      if acc = [] then splitWsAux cs [] else acc.reverse :: splitWsAux cs []
    else splitWsAux cs (ch :: acc)

/-- Python `s.split()` with no separator: split on whitespace runs,
discarding empty fields. -/
def splitWs (l : List Char) : List (List Char) :=
  splitWsAux l []

/-- The list comprehension `[int(v) for v in s.split(".")]`: evaluates
`int` on each field left to right, the whole computation failing (with a
`ValueError`) as soon as one field fails. -/
def mapIntList : List String → Option (List Int)
  | [] => some []
  | s :: ss =>
    match pyInt s, mapIntList ss with
    | some i, some is => some (i :: is)
    | _, _ => none

/-- The `FactorioBuild` `StrEnum` of the source. -/
inductive FactorioBuild where
  | alpha
  | expansion
  | demo
  | headless
deriving DecidableEq, Repr

/-- The `.value` string of each `FactorioBuild` member. -/
def FactorioBuild.value : FactorioBuild → String
  | .alpha => "alpha"
  | .expansion => "expansion"
  | .demo => "demo"
  | .headless => "headless"

/-- The `FactorioDistro` `StrEnum` of the source. -/
inductive FactorioDistro where
  | win64
  | win64_manual
  | osx
  | linux64
deriving DecidableEq, Repr

/-- The `.value` string of each `FactorioDistro` member. -/
def FactorioDistro.value : FactorioDistro → String
  | .win64 => "win64"
  | .win64_manual => "win64-manual"
  | .osx => "osx"
  | .linux64 => "linux64"

/-- The `EXTENSION_FOR_DISTRO` table of the source. -/
def EXTENSION_FOR_DISTRO : FactorioDistro → String
  | .win64 => "exe"
  | .win64_manual => "zip"
  | .osx => "dmg"
  | .linux64 => "tar.gz"

/-- The `FactorioVersion` NamedTuple: `(major, minor, patch)` with Python
`int` components. -/
structure FactorioVersion where
  major : Int
  minor : Int
  patch : Int
deriving DecidableEq, Repr

/-- `FactorioVersion.from_str`: `[int(v) for v in s.split(".")]`, then an
explicit `ValueError` unless exactly three fields resulted. -/
def FactorioVersion.from_str (s : String) : Except PyError FactorioVersion :=
  match mapIntList ((splitOnDot s.data).map List.asString) with
  | none => .error (.valueError "invalid literal for int() with base 10")
  | some version_list =>
    match version_list with
    | [major, minor, patch] => .ok ⟨major, minor, patch⟩
    | _ => .error (.valueError "Incorrect number of version values in version")

/-- `FactorioVersion.__str__`: the f-string `major.minor.patch`. -/
def FactorioVersion.toStr (v : FactorioVersion) : String :=
  pyStrOfInt v.major ++ "." ++ pyStrOfInt v.minor ++ "." ++ pyStrOfInt v.patch

/-- Python tuple `<` on a NamedTuple: lexicographic on
(major, minor, patch). -/
def FactorioVersion.ltb (a b : FactorioVersion) : Bool :=
  decide (a.major < b.major) ||
    (decide (a.major = b.major) && (decide (a.minor < b.minor) ||
      (decide (a.minor = b.minor) && decide (a.patch < b.patch))))

/-- `get_downloaded_version`: the marker file is modelled as
`Option String` (its content, or `none` when `version_file.is_file()` is
false). An existing file is read, split on whitespace, indexed at 0
(raising `IndexError` when the content has no token), stripped, and
parsed with `FactorioVersion.from_str`. -/
def get_downloaded_version (markerContent : Option String) :
    Except PyError (Option FactorioVersion) :=
  match markerContent with
  | none => .ok none
  | some text =>
    match splitWs text.data with
    | [] => .error .indexError
    | tok :: _ => (FactorioVersion.from_str (stripWs tok).asString).map some

/-- `get_latest_version`: the HTTP GET of the latest-releases endpoint,
the JSON decode and the lookup of the stable entry for the build are
network effects, modelled by a `Except PyError String` supplied by the
world (the string being the value at the build channel key of the
response's stable object); the extracted string is then parsed with
`FactorioVersion.from_str`. -/
def get_latest_version (remoteStable : Except PyError String) :
    Except PyError FactorioVersion :=
  match remoteStable with
  | .error e => .error e
  | .ok s => FactorioVersion.from_str s

/-- One HTTP response of the download endpoint: the status code, the
optional `content-length` header value, and the body as the sequence of
chunks that `iter_chunked` yields. -/
structure HttpResponse where
  status : Nat
  contentLength : Option String
  chunks : List (List Nat)

/-- The two on-disk paths a download task touches: the temp file
(`<name>.tmp` in the download dir) and the final save file, each holding
its byte content when present. -/
structure TaskFS where
  tempFile : Option (List Nat)
  saveFile : Option (List Nat)
deriving Repr

/-- What one download task leaves behind: the final state of its two
files, its outcome (`ok` or the raised exception), the total size it
reported to the progress sink (if it got that far) and the list of
progress-advance amounts it reported, one per chunk. -/
structure TaskOutcome where
  fs : TaskFS
  result : Except PyError Unit
  totalReported : Option Int
  advances : List Nat

/-- The body of the inner `download` coroutine, for one distro: delete
any stale temp file, GET the distro's URL (the response is supplied by
the world), `raise_for_status()`, parse the `content-length` header
(header absent means the Python default `0`), stream the chunks to the
temp file reporting each chunk's length as a progress advance, then
delete any stale save file and rename the temp file onto it. -/
def download (resp : HttpResponse) (fs0 : TaskFS) : TaskOutcome :=
  let fs1 : TaskFS := { fs0 with tempFile := none }
  if 400 ≤ resp.status then
    { fs := fs1, result := .error (.downloadError resp.status),
      totalReported := none, advances := [] }
  else
    match (match resp.contentLength with | none => some 0 | some s => pyInt s) with
    | none =>
      { fs := fs1, result := .error (.valueError "invalid literal for int() with base 10"),
        totalReported := none, advances := [] }
    | some total =>
      { fs := { tempFile := none, saveFile := some resp.chunks.flatten },
        result := .ok (), totalReported := some total,
        advances := resp.chunks.map List.length }

/-- The `--version` argument after line 163: either the token "latest"
or an explicitly requested concrete version. -/
inductive RequestedVersion where
  | latest
  | explicit (v : FactorioVersion)
deriving DecidableEq, Repr

/-- The f-string rendering of `requested_version`: the token itself, or
`FactorioVersion.__str__` of the explicit triple. -/
def RequestedVersion.toStr : RequestedVersion → String
  | .latest => "latest"
  | .explicit v => v.toStr

/-- Observable side effects of a run, in program order: the GET of the
latest-releases endpoint, the `unlink` of the marker file, each download
task's GET, and the final `write_text` of the marker file. -/
inductive Event where
  | queryResolver
  | deleteMarker
  | httpGet (url : String)
  | writeMarker (content : String)
deriving DecidableEq, Repr

/-- How the process ends: a `sys.exit` with the given code, an uncaught
exception, or falling off the end of `main` (full success). -/
inductive MainResult where
  | exitCode (code : Int)
  | raised (e : PyError)
  | completed
deriving DecidableEq, Repr

/-- The environment a run executes against: the marker file's content
(or absence), the stable version string the latest-releases endpoint
reports for the selected build (or the error the query raises), the
download endpoint's response per distro, and the initial state of each
distro's files. -/
structure World where
  markerContent : Option String
  remoteStable : Except PyError String
  response : FactorioDistro → HttpResponse
  initFiles : FactorioDistro → TaskFS

/-- Result of a run: the process outcome, the marker file's content at
the end, and the event trace. -/
structure RunResult where
  result : MainResult
  marker : Option String
  trace : List Event
deriving DecidableEq, Repr

/-- `DOWNLOAD_URL_TEMPLATE.format(version=requested_version,
build=build.value, distro=distro.value)`. -/
def DOWNLOAD_URL (requested : RequestedVersion) (build : FactorioBuild)
    (distro : FactorioDistro) : String :=
  "https://www.factorio.com/get-download/" ++ requested.toStr ++ "/" ++
    build.value ++ "/" ++ distro.value

/-- First exception among the task outcomes, in task-creation order:
models the `asyncio.TaskGroup` re-raising a failed child's exception
(wrapped in an `ExceptionGroup`) out of the `async with` block. -/
def firstErr : List (FactorioDistro × TaskOutcome) → Option PyError
  | [] => none
  | p :: ps =>
    match p.2.result with
    | .error e => some e
    | .ok _ => firstErr ps

/-- Lines 210 to 251 of `main`: delete the marker file, run one download
task per distro under the task group, and if every task succeeded write
the marker file with `downloaded_version if downloaded_version else
requested_version` (a NamedTuple is always truthy, so a present
`downloaded_version` always wins) plus a newline. `pre` is the event
trace accumulated by the reconciliation decision. -/
def proceedDownload (requested : RequestedVersion) (build : FactorioBuild)
    (distros : List FactorioDistro) (world : World)
    (downloaded : Option FactorioVersion) (pre : List Event) : RunResult :=
  let outcomes := distros.map (fun d => (d, download (world.response d) (world.initFiles d)))
  let getEvents := distros.map (fun d => Event.httpGet (DOWNLOAD_URL requested build d))
  match firstErr outcomes with
  | some e =>
    { result := .raised e, marker := none,
      trace := pre ++ Event.deleteMarker :: getEvents }
  | none =>
    let content := (match downloaded with
      | some dv => dv.toStr
      | none => requested.toStr) ++ "\n"
    { result := .completed, marker := some content,
      trace := pre ++ Event.deleteMarker :: (getEvents ++ [Event.writeMarker content]) }

/-- Lines 174 to 251 of `main` (the part after argument and credential
setup): read the marker, run the reconciliation decision of lines
177-197, and either exit early or proceed to the downloads. Uncaught
exceptions leave the marker file untouched unless the deletion at line
210 already ran. -/
def mainRun (requested : RequestedVersion) (build : FactorioBuild)
    (distros : List FactorioDistro) (world : World) : RunResult :=
  match get_downloaded_version world.markerContent with
  | .error e => { result := .raised e, marker := world.markerContent, trace := [] }
  | .ok downloaded =>
    match downloaded with
    | some dv =>
      match requested with
      | .latest =>
        match get_latest_version world.remoteStable with
        | .error e =>
          { result := .raised e, marker := world.markerContent,
            trace := [.queryResolver] }
        | .ok latest_version =>
          if latest_version = dv then
            { result := .exitCode 0, marker := world.markerContent,
              trace := [.queryResolver] }
          else if FactorioVersion.ltb latest_version dv then
            { result := .exitCode (-10), marker := world.markerContent,
              trace := [.queryResolver] }
          else
            proceedDownload requested build distros world downloaded [.queryResolver]
      | .explicit v =>
        if dv = v then
          { result := .exitCode 0, marker := world.markerContent, trace := [] }
        else
          proceedDownload requested build distros world downloaded []
    | none => proceedDownload requested build distros world downloaded []

/-- Whether distro `d`'s download task succeeds against this world. -/
def taskOk (world : World) (d : FactorioDistro) : Bool :=
  match (download (world.response d) (world.initFiles d)).result with
  | .ok _ => true
  | .error _ => false

/-- Every character `digitChar` produces is an ASCII digit. -/
theorem isDigitChar_digitChar (d : Nat) : isDigitChar (digitChar d) = true := by
  unfold digitChar
  split_ifs <;> decide

/-- On digits below 10, `digitVal` inverts `digitChar`. -/
theorem digitVal_digitChar (d : Nat) (hd : d < 10) : digitVal (digitChar d) = d := by
  unfold digitChar
  split_ifs with h0 h1 h2 h3 h4 h5 h6 h7 h8
  · subst h0; decide
  · subst h1; decide
  · subst h2; decide
  · subst h3; decide
  · subst h4; decide
  · subst h5; decide
  · subst h6; decide
  · subst h7; decide
  · subst h8; decide
  · have h9 : d = 9 := by omega
    subst h9; decide

/-- An ASCII digit is not a whitespace character. -/
theorem not_ws_of_isDigitChar {ch : Char} (h : isDigitChar ch = true) :
    ch.isWhitespace = false := by
  have hv : 48 ≤ ch.toNat ∧ ch.toNat ≤ 57 := by
    simpa [isDigitChar] using h
  simp only [Char.isWhitespace, Bool.or_eq_false_iff, beq_eq_false_iff_ne,
    decide_eq_false_iff_not]
  refine ⟨⟨⟨?_, ?_⟩, ?_⟩, ?_⟩ <;>
    · intro he
      subst he
      revert hv
      decide

/-- An ASCII digit is not the separator `'.'`. -/
theorem ne_dot_of_isDigitChar {ch : Char} (h : isDigitChar ch = true) : ch ≠ '.' := by
  intro he
  subst he
  exact absurd h (by decide)

/-- An ASCII digit is not a sign character. -/
theorem ne_sign_of_isDigitChar {ch : Char} (h : isDigitChar ch = true) :
    ch ≠ '-' ∧ ch ≠ '+' := by
  constructor <;>
    · intro he
      subst he
      exact absurd h (by decide)

/-- `dropWhile` leaves a list alone when no element satisfies the
predicate. -/
theorem dropWhile_eq_self_of_none {p : Char → Bool} :
    ∀ {l : List Char}, (∀ ch ∈ l, p ch = false) → l.dropWhile p = l := by
  intro l
  induction l with
  | nil => intro _; rfl
  | cons c cs ih =>
    intro h
    rw [List.dropWhile_cons, if_neg]
    simp [h c (List.mem_cons_self c cs)]

/-- `stripWs` leaves a whitespace-free list alone. -/
theorem stripWs_eq_self {l : List Char} (h : ∀ ch ∈ l, ch.isWhitespace = false) :
    stripWs l = l := by
  unfold stripWs
  rw [dropWhile_eq_self_of_none h,
    dropWhile_eq_self_of_none (fun ch hch => h ch (List.mem_reverse.mp hch)),
    List.reverse_reverse]

/-- All characters produced by `natToDigitsAux` are ASCII digits. -/
theorem natToDigitsAux_digits :
    ∀ (fuel n : Nat), ∀ ch ∈ natToDigitsAux fuel n, isDigitChar ch = true := by
  intro fuel
  induction fuel with
  | zero => intro n ch hch; simp [natToDigitsAux] at hch
  | succ f ih =>
    intro n ch hch
    by_cases hn : n = 0
    · simp [natToDigitsAux, hn] at hch
    · rw [natToDigitsAux, if_neg hn] at hch
      rcases List.mem_append.mp hch with hl | hr
      · exact ih (n / 10) ch hl
      · rw [List.mem_singleton.mp hr]
        exact isDigitChar_digitChar _

/-- All characters of `natToDigitStr n` are ASCII digits. -/
theorem natToDigitStr_digits (n : Nat) :
    ∀ ch ∈ natToDigitStr n, isDigitChar ch = true := by
  intro ch hch
  unfold natToDigitStr at hch
  by_cases hn : n = 0
  · rw [if_pos hn] at hch
    rw [List.mem_singleton.mp hch]
    decide
  · rw [if_neg hn] at hch
    exact natToDigitsAux_digits (n + 1) n ch hch

/-- `natToDigitStr` never returns the empty list. -/
theorem natToDigitStr_ne_nil (n : Nat) : natToDigitStr n ≠ [] := by
  unfold natToDigitStr
  by_cases hn : n = 0
  · simp [hn]
  · rw [if_neg hn, natToDigitsAux, if_neg hn]
    simp

/-- Appending one digit multiplies the accumulated value by ten. -/
theorem digitsToNat_append_digit (l : List Char) (ch : Char) :
    digitsToNat (l ++ [ch]) = 10 * digitsToNat l + digitVal ch := by
  unfold digitsToNat
  rw [List.foldl_append]
  rfl

/-- With enough fuel, `natToDigitsAux` prints `n` in base ten. -/
theorem digitsToNat_natToDigitsAux :
    ∀ (fuel n : Nat), n ≤ fuel → digitsToNat (natToDigitsAux fuel n) = n := by
  intro fuel
  induction fuel with
  | zero =>
    intro n hn
    interval_cases n
    rfl
  | succ f ih =>
    intro n hn
    by_cases hn0 : n = 0
    · simp [natToDigitsAux, hn0, digitsToNat]
    · rw [natToDigitsAux, if_neg hn0, digitsToNat_append_digit,
        ih (n / 10) ?_, digitVal_digitChar (n % 10) (Nat.mod_lt _ (by omega)),
        Nat.div_add_mod]
      have : n / 10 < n := Nat.div_lt_self (by omega) (by omega)
      omega

/-- `natToDigitStr` prints `n` in base ten. -/
theorem digitsToNat_natToDigitStr (n : Nat) : digitsToNat (natToDigitStr n) = n := by
  unfold natToDigitStr
  by_cases hn : n = 0
  · subst hn; rfl
  · rw [if_neg hn]
    exact digitsToNat_natToDigitsAux (n + 1) n (by omega)

/-- On a pure digit list, `pyDigitsRest` folds the digits into the
accumulator and succeeds. -/
theorem pyDigitsRest_digits :
    ∀ (l : List Char), (∀ ch ∈ l, isDigitChar ch = true) → ∀ (acc : Nat),
      pyDigitsRest l acc = some (l.foldl (fun a ch => 10 * a + digitVal ch) acc) := by
  intro l
  induction l with
  | nil => intro _ acc; rfl
  | cons c cs ih =>
    intro h acc
    have hc : isDigitChar c = true := h c (List.mem_cons_self c cs)
    rw [pyDigitsRest.eq_def]
    simp only [if_pos hc]
    rw [ih (fun ch hch => h ch (List.mem_cons_of_mem c hch))]
    rfl

/-- On a nonempty pure digit list, `pyIntOfChars` succeeds with the
base-ten value. -/
theorem pyIntOfChars_digits (l : List Char) (hne : l ≠ [])
    (h : ∀ ch ∈ l, isDigitChar ch = true) :
    pyIntOfChars l = some ((digitsToNat l : Nat) : Int) := by
  match l with
  | [] => exact absurd rfl hne
  | c :: cs =>
    have hc : isDigitChar c = true := h c (List.mem_cons_self c cs)
    have hsign := ne_sign_of_isDigitChar hc
    rw [pyIntOfChars, if_neg hsign.1, if_neg hsign.2, pyDigitsStart, if_pos hc,
      pyDigitsRest_digits cs (fun ch hch => h ch (List.mem_cons_of_mem c hch))]
    simp [digitsToNat, List.foldl_cons]

/-- Python `int` on the decimal printing of a natural number recovers
the number. -/
theorem pyInt_natToDigitStr (n : Nat) :
    pyInt (natToDigitStr n).asString = some ((n : Nat) : Int) := by
  unfold pyInt
  have hdata : ((natToDigitStr n).asString).data = natToDigitStr n := rfl
  rw [hdata,
    stripWs_eq_self (fun ch hch => not_ws_of_isDigitChar (natToDigitStr_digits n ch hch)),
    pyIntOfChars_digits _ (natToDigitStr_ne_nil n) (natToDigitStr_digits n),
    digitsToNat_natToDigitStr]

/-- Splitting at an explicit `'.'` after a dot-free prefix isolates the
prefix as one field. -/
theorem splitOnDot_append (A : List Char) (hA : ∀ ch ∈ A, ch ≠ '.') (rest : List Char) :
    splitOnDot (A ++ '.' :: rest) = A :: splitOnDot rest := by
  induction A with
  | nil => simp [splitOnDot]
  | cons c A ih =>
    have hc : c ≠ '.' := hA c (List.mem_cons_self c A)
    rw [List.cons_append, splitOnDot, if_neg hc,
      ih (fun ch hch => hA ch (List.mem_cons_of_mem c hch))]

/-- A dot-free list is a single field. -/
theorem splitOnDot_no_dot (A : List Char) (hA : ∀ ch ∈ A, ch ≠ '.') :
    splitOnDot A = [A] := by
  induction A with
  | nil => rfl
  | cons c A ih =>
    have hc : c ≠ '.' := hA c (List.mem_cons_self c A)
    rw [splitOnDot, if_neg hc, ih (fun ch hch => hA ch (List.mem_cons_of_mem c hch))]

/-- For a non-negative component, `pyStrOfInt` prints the digit string
of its absolute value. -/
theorem pyStrOfInt_nonneg (i : Int) (hi : 0 ≤ i) :
    pyStrOfInt i = (natToDigitStr i.toNat).asString := by
  unfold pyStrOfInt
  rw [if_neg (by omega)]

/-- Python `int` round-trips through `pyStrOfInt` on non-negative
integers. -/
theorem pyInt_pyStrOfInt (i : Int) (hi : 0 ≤ i) : pyInt (pyStrOfInt i) = some i := by
  rw [pyStrOfInt_nonneg i hi, pyInt_natToDigitStr, Int.toNat_of_nonneg hi]

/-- The field-wise `int` computation succeeds exactly when every field
parses. -/
theorem mapIntList_isSome (l : List String) :
    (mapIntList l).isSome = true ↔ ∀ s ∈ l, (pyInt s).isSome = true := by
  induction l with
  | nil => simp [mapIntList]
  | cons s ss ih =>
    rw [mapIntList]
    rcases hp : pyInt s with _ | i
    · simp only [Option.isSome_none, Bool.false_eq_true, false_iff]
      intro hall
      have := hall s (List.mem_cons_self s ss)
      rw [hp] at this
      exact absurd this (by decide)
    · rcases hm : mapIntList ss with _ | is
      · simp only [Option.isSome_none, Bool.false_eq_true, false_iff]
        intro hall
        have : (mapIntList ss).isSome = true :=
          ih.mpr (fun t ht => hall t (List.mem_cons_of_mem s ht))
        rw [hm] at this
        exact absurd this (by decide)
      · simp only [Option.isSome_some, true_iff]
        intro t ht
        rcases List.mem_cons.mp ht with he | hm2
        · rw [he, hp]; rfl
        · have := ih.mp (by rw [hm]; rfl)
          exact this t hm2

/-- The field-wise `int` computation preserves the number of fields. -/
theorem mapIntList_length :
    ∀ (l : List String) (is : List Int), mapIntList l = some is → is.length = l.length := by
  intro l
  induction l with
  | nil => intro is h; cases h; rfl
  | cons s ss ih =>
    intro is h
    rw [mapIntList] at h
    rcases hp : pyInt s with _ | i <;> rw [hp] at h
    · exact absurd h (by simp)
    · rcases hm : mapIntList ss with _ | js <;> rw [hm] at h
      · exact absurd h (by simp)
      · cases h
        simp [ih js hm]

/-- The character data of `FactorioVersion.toStr` on non-negative
components: the three digit strings joined by dots. -/
theorem toStr_data (a b c : Int) (ha : 0 ≤ a) (hb : 0 ≤ b) (hc : 0 ≤ c) :
    (FactorioVersion.toStr ⟨a, b, c⟩).data =
      natToDigitStr a.toNat ++ '.' ::
        (natToDigitStr b.toNat ++ '.' :: natToDigitStr c.toNat) := by
  show (pyStrOfInt a ++ "." ++ pyStrOfInt b ++ "." ++ pyStrOfInt c).data = _
  rw [pyStrOfInt_nonneg a ha, pyStrOfInt_nonneg b hb, pyStrOfInt_nonneg c hc]
  show natToDigitStr a.toNat ++ ['.'] ++ natToDigitStr b.toNat ++ ['.'] ++
      natToDigitStr c.toNat = _
  simp [List.append_assoc]

/-- The digit strings of the three components contain no dot. -/
theorem natToDigitStr_no_dot (n : Nat) : ∀ ch ∈ natToDigitStr n, ch ≠ '.' :=
  fun ch hch => ne_dot_of_isDigitChar (natToDigitStr_digits n ch hch)

/-- C9: for every triple of non-negative integer components, parsing the
formatted string of the version yields the same components back:
`from_str` applied to `__str__` of `(a, b, c)` returns `(a, b, c)`. -/
theorem parse_format_roundtrip (a b c : Int) (ha : 0 ≤ a) (hb : 0 ≤ b) (hc : 0 ≤ c) :
    FactorioVersion.from_str (FactorioVersion.toStr ⟨a, b, c⟩) = .ok ⟨a, b, c⟩ := by
  have hpa : pyInt (natToDigitStr a.toNat).asString = some a := by
    rw [pyInt_natToDigitStr, Int.toNat_of_nonneg ha]
  have hpb : pyInt (natToDigitStr b.toNat).asString = some b := by
    rw [pyInt_natToDigitStr, Int.toNat_of_nonneg hb]
  have hpc : pyInt (natToDigitStr c.toNat).asString = some c := by
    rw [pyInt_natToDigitStr, Int.toNat_of_nonneg hc]
  unfold FactorioVersion.from_str
  rw [toStr_data a b c ha hb hc,
    splitOnDot_append _ (natToDigitStr_no_dot a.toNat) _,
    splitOnDot_append _ (natToDigitStr_no_dot b.toNat) _,
    splitOnDot_no_dot _ (natToDigitStr_no_dot c.toNat)]
  simp only [List.map_cons, List.map_nil, mapIntList, hpa, hpb, hpc]

/-- The task group raises no exception exactly when every task
succeeds. -/
theorem firstErr_none_iff (world : World) (distros : List FactorioDistro) :
    firstErr (distros.map (fun d => (d, download (world.response d) (world.initFiles d)))) =
        none ↔
      distros.all (taskOk world) = true := by
  induction distros with
  | nil => simp [firstErr]
  | cons d ds ih =>
    rw [List.map_cons, firstErr, List.all_cons]
    rcases hr : (download (world.response d) (world.initFiles d)).result with e | u
    · simp [taskOk, hr]
    · simp [taskOk, hr, ih]

/-- If a middle element `x` sits after a prefix free of `p`-elements and
is itself not a `p`-element, then in any decomposition of the list at a
`p`-element, `x` falls in the left part. -/
theorem mem_left_of_decomp {α : Type} (p : α → Prop) (x : α) :
    ∀ (pre mid l1 l2 : List α) (y : α), pre ++ x :: mid = l1 ++ y :: l2 →
      p y → (∀ v ∈ pre, ¬ p v) → ¬ p x → x ∈ l1 := by
  intro pre
  induction pre with
  | nil =>
    intro mid l1 l2 y heq hy _ hx
    cases l1 with
    | nil =>
      rw [List.nil_append, List.nil_append] at heq
      have hxy : x = y := (List.cons.injEq _ _ _ _ ▸ heq).1
      exact absurd (hxy ▸ hy) hx
    | cons a l1 =>
      have hxa : x = a := by
        have := congrArg List.head? heq
        simpa using this
      rw [hxa]
      exact List.mem_cons_self a l1
  | cons q pre ih =>
    intro mid l1 l2 y heq hy hpre hx
    cases l1 with
    | nil =>
      rw [List.nil_append] at heq
      have hqy : q = y := by
        have := congrArg List.head? heq
        simpa using this
      exact absurd (hqy ▸ hy) (hpre q (List.mem_cons_self q pre))
    | cons a l1 =>
      have hqa : q = a ∧ pre ++ x :: mid = l1 ++ y :: l2 := by
        rw [List.cons_append, List.cons_append] at heq
        exact ⟨(List.cons.injEq _ _ _ _ ▸ heq).1, (List.cons.injEq _ _ _ _ ▸ heq).2⟩
      exact List.mem_cons_of_mem a
        (ih mid l1 l2 y hqa.2 hy (fun v hv => hpre v (List.mem_cons_of_mem q hv)) hx)

/-- Either the run proceeds to download (its result is that of
`proceedDownload`, with a decision trace holding no download-phase
event), or it stops during the decision, leaving the marker file
untouched and performing no deletion, GET or write. The resolver is
queried only when the marker file was present. -/
theorem mainRun_shape (requested : RequestedVersion) (build : FactorioBuild)
    (distros : List FactorioDistro) (world : World) :
    (∃ downloaded pre, get_downloaded_version world.markerContent = .ok downloaded ∧
        (pre = ([] : List Event) ∨
          (pre = [Event.queryResolver] ∧ world.markerContent ≠ none)) ∧
        mainRun requested build distros world =
          proceedDownload requested build distros world downloaded pre)
      ∨ (((mainRun requested build distros world).trace = [] ∨
          ((mainRun requested build distros world).trace = [Event.queryResolver] ∧
            world.markerContent ≠ none)) ∧
        (mainRun requested build distros world).marker = world.markerContent) := by
  rcases hgd : get_downloaded_version world.markerContent with e | downloaded
  · right
    constructor
    · left
      simp [mainRun, hgd]
    · simp [mainRun, hgd]
  · cases downloaded with
    | none =>
      left
      exact ⟨none, [], rfl, Or.inl rfl, by simp [mainRun, hgd]⟩
    | some dv =>
      have hmne : world.markerContent ≠ none := by
        intro h
        rw [h] at hgd
        simp [get_downloaded_version] at hgd
      cases requested with
      | explicit v =>
        by_cases hev : dv = v
        · right
          refine ⟨Or.inl ?_, ?_⟩ <;> simp [mainRun, hgd, hev]
        · left
          exact ⟨some dv, [], rfl, Or.inl rfl, by simp [mainRun, hgd, hev]⟩
      | latest =>
        rcases hgl : get_latest_version world.remoteStable with e | lv
        · right
          refine ⟨Or.inr ⟨?_, hmne⟩, ?_⟩ <;> simp [mainRun, hgd, hgl]
        · by_cases heq : lv = dv
          · right
            refine ⟨Or.inr ⟨?_, hmne⟩, ?_⟩ <;> simp [mainRun, hgd, hgl, heq]
          · by_cases hlt : FactorioVersion.ltb lv dv = true
            · right
              refine ⟨Or.inr ⟨?_, hmne⟩, ?_⟩ <;> simp [mainRun, hgd, hgl, heq, hlt]
            · left
              refine ⟨some dv, [Event.queryResolver], rfl, Or.inr ⟨rfl, hmne⟩, ?_⟩
              simp [mainRun, hgd, hgl, heq, hlt]

/-- C3: whenever the orchestrator proceeds to download (the marker
deletion appears in the trace), the deletion precedes every download
GET; when all tasks succeed, the marker write is the very last event and
happens exactly once; and when some task fails, no marker write happens
and the marker file is absent at the end. -/
theorem marker_all_or_nothing (requested : RequestedVersion) (build : FactorioBuild)
    (distros : List FactorioDistro) (world : World)
    (hp : Event.deleteMarker ∈ (mainRun requested build distros world).trace) :
    (∀ l1 u l2, (mainRun requested build distros world).trace =
        l1 ++ Event.httpGet u :: l2 → Event.deleteMarker ∈ l1)
    ∧ (distros.all (taskOk world) = true →
        ∃ cont, (mainRun requested build distros world).marker = some cont ∧
          ∃ l1, (mainRun requested build distros world).trace =
              l1 ++ [Event.writeMarker cont] ∧
            ∀ c2, Event.writeMarker c2 ∉ l1)
    ∧ (distros.all (taskOk world) = false →
        (mainRun requested build distros world).marker = none ∧
        ∀ cont, Event.writeMarker cont ∉ (mainRun requested build distros world).trace) := by
  rcases mainRun_shape requested build distros world with
    ⟨downloaded, pre, hgd, hpre, heq⟩ | ⟨htr, hmk⟩
  · have hpre_mem : ∀ v ∈ pre, v = Event.queryResolver := by
      rcases hpre with h | ⟨h, _⟩ <;> subst h <;> simp
    rw [heq] at hp ⊢
    simp only [proceedDownload]
    rcases hfe : firstErr
        (distros.map (fun d => (d, download (world.response d) (world.initFiles d)))) with
      _ | e
    · -- every task succeeded
      refine ⟨?_, ?_, ?_⟩
      · intro l1 u l2 htr
        simp only at htr
        refine mem_left_of_decomp (fun v => ∃ w, v = Event.httpGet w)
          Event.deleteMarker pre _ l1 l2 (Event.httpGet u) htr ⟨u, rfl⟩ ?_ ?_
        · intro v hv hpv
          rcases hpv with ⟨w, hw⟩
          rw [hpre_mem v hv] at hw
          exact Event.noConfusion hw
        · rintro ⟨w, hw⟩
          exact Event.noConfusion hw
      · intro _
        refine ⟨_, rfl, pre ++ Event.deleteMarker ::
          distros.map (fun d => Event.httpGet (DOWNLOAD_URL requested build d)), ?_, ?_⟩
        · simp
        · intro c2 hc2
          rcases List.mem_append.mp hc2 with hl | hr
          · have := hpre_mem _ hl
            exact Event.noConfusion this
          · rcases List.mem_cons.mp hr with he | hm
            · exact Event.noConfusion he
            · rcases List.mem_map.mp hm with ⟨d, _, hd⟩
              exact Event.noConfusion hd
      · intro hall
        rw [(firstErr_none_iff world distros).mp hfe] at hall
        exact Bool.noConfusion hall
    · -- some task failed
      refine ⟨?_, ?_, ?_⟩
      · intro l1 u l2 htr
        simp only at htr
        refine mem_left_of_decomp (fun v => ∃ w, v = Event.httpGet w)
          Event.deleteMarker pre _ l1 l2 (Event.httpGet u) htr ⟨u, rfl⟩ ?_ ?_
        · intro v hv hpv
          rcases hpv with ⟨w, hw⟩
          rw [hpre_mem v hv] at hw
          exact Event.noConfusion hw
        · rintro ⟨w, hw⟩
          exact Event.noConfusion hw
      · intro hall
        have : (False : Prop) := by
          have h2 := (firstErr_none_iff world distros).mpr hall
          rw [hfe] at h2
          exact Option.noConfusion h2
        exact absurd this (by simp)
      · intro _
        refine ⟨rfl, ?_⟩
        intro cont hc
        rcases List.mem_append.mp hc with hl | hr
        · have := hpre_mem _ hl
          exact Event.noConfusion this
        · rcases List.mem_cons.mp hr with he | hm
          · exact Event.noConfusion he
          · rcases List.mem_map.mp hm with ⟨d, _, hd⟩
            exact Event.noConfusion hd
  · rcases htr with h | ⟨h, _⟩ <;> rw [h] at hp <;> simp at hp

/-- C4: with a marker present and a "latest" request, equality of the
resolved latest with the marker version exits 0 without downloading and
leaves the marker alone; a strictly older latest exits with the distinct
code -10, downloads nothing and leaves the marker alone; and a strictly
newer latest proceeds to download. -/
theorem latest_reconciliation (build : FactorioBuild) (distros : List FactorioDistro)
    (world : World) (dv lv : FactorioVersion)
    (hm : get_downloaded_version world.markerContent = .ok (some dv))
    (hl : get_latest_version world.remoteStable = .ok lv) :
    (lv = dv →
      (mainRun .latest build distros world).result = .exitCode 0 ∧
      (mainRun .latest build distros world).marker = world.markerContent ∧
      ∀ u, Event.httpGet u ∉ (mainRun .latest build distros world).trace)
    ∧ (FactorioVersion.ltb lv dv = true →
      (mainRun .latest build distros world).result = .exitCode (-10) ∧
      (mainRun .latest build distros world).marker = world.markerContent ∧
      ∀ u, Event.httpGet u ∉ (mainRun .latest build distros world).trace)
    ∧ (lv ≠ dv → FactorioVersion.ltb lv dv = false →
      Event.deleteMarker ∈ (mainRun .latest build distros world).trace) := by
  refine ⟨?_, ?_, ?_⟩
  · intro he
    subst he
    simp [mainRun, hm, hl]
  · intro hlt
    have hne : lv ≠ dv := by
      intro he
      subst he
      rw [show FactorioVersion.ltb lv lv = false by simp [FactorioVersion.ltb]] at hlt
      exact Bool.noConfusion hlt
    simp [mainRun, hm, hl, hne, hlt]
  · intro hne hlt
    simp only [mainRun, hm, hl, if_neg hne, hlt]
    simp only [Bool.false_eq_true, if_false, proceedDownload]
    rcases firstErr
        (distros.map (fun d => (d, download (world.response d) (world.initFiles d)))) with
      _ | e <;> simp

/-- C7: with a marker present and an explicit version request, equality
with the marker version exits 0 without downloading; any other explicit
version (older ones included) proceeds to download, and no resolver
query (the anomaly check's ingredient) happens on this branch. -/
theorem explicit_reconciliation (build : FactorioBuild) (distros : List FactorioDistro)
    (world : World) (dv v : FactorioVersion)
    (hm : get_downloaded_version world.markerContent = .ok (some dv)) :
    (v = dv →
      (mainRun (.explicit v) build distros world).result = .exitCode 0 ∧
      (mainRun (.explicit v) build distros world).marker = world.markerContent ∧
      ∀ u, Event.httpGet u ∉ (mainRun (.explicit v) build distros world).trace)
    ∧ (v ≠ dv →
      Event.deleteMarker ∈ (mainRun (.explicit v) build distros world).trace ∧
      Event.queryResolver ∉ (mainRun (.explicit v) build distros world).trace) := by
  constructor
  · intro he
    subst he
    simp [mainRun, hm]
  · intro hne
    have hne2 : dv ≠ v := fun h => hne h.symm
    simp only [mainRun, hm, if_neg hne2, proceedDownload]
    rcases firstErr
        (distros.map (fun d => (d, download (world.response d) (world.initFiles d)))) with
      _ | e
    · constructor
      · simp
      · intro hq
        simp only [List.nil_append] at hq
        rcases List.mem_cons.mp hq with he | hm2
        · exact Event.noConfusion he
        · rcases List.mem_append.mp hm2 with hg | hw
          · rcases List.mem_map.mp hg with ⟨d, _, hd⟩
            exact Event.noConfusion hd
          · rcases List.mem_singleton.mp hw with h
            exact Event.noConfusion h
    · constructor
      · simp
      · intro hq
        simp only [List.nil_append] at hq
        rcases List.mem_cons.mp hq with he | hm2
        · exact Event.noConfusion he
        · rcases List.mem_map.mp hm2 with ⟨d, _, hd⟩
          exact Event.noConfusion hd

/-- C5: a download task seeing a non-success HTTP status raises and
never creates or overwrites the final file (only the temp path was
touched, and it ends absent); a task that completes successfully leaves
the final file present, the temp file absent, and the final file's byte
size equal to the sum of the progress advances it reported. -/
theorem download_task_files (resp : HttpResponse) (fs0 : TaskFS) :
    (400 ≤ resp.status →
      (download resp fs0).result = .error (.downloadError resp.status) ∧
      (download resp fs0).fs.saveFile = fs0.saveFile ∧
      (download resp fs0).fs.tempFile = none ∧
      (download resp fs0).advances = [])
    ∧ ((download resp fs0).result = .ok () →
      ∃ content, (download resp fs0).fs.saveFile = some content ∧
        (download resp fs0).fs.tempFile = none ∧
        content.length = (download resp fs0).advances.sum) := by
  constructor
  · intro hs
    simp [download, if_pos hs]
  · intro hok
    by_cases hs : 400 ≤ resp.status
    · rw [download, if_pos hs] at hok
      exact absurd hok (by simp)
    · rw [download, if_neg hs] at hok ⊢
      rcases hcl : (match resp.contentLength with | none => some 0 | some s => pyInt s) with
        _ | total <;> rw [hcl] at hok ⊢
      · exact absurd hok (by simp)
      · refine ⟨resp.chunks.flatten, rfl, rfl, ?_⟩
        simp [List.length_flatten]

/-- C10: with no marker file and a "latest" request, a run in which
every task succeeds writes the literal token followed by a newline into
the marker file, and a subsequent `get_downloaded_version` of that
content raises a `ValueError` instead of returning a version. -/
theorem latest_literal_marker (build : FactorioBuild) (distros : List FactorioDistro)
    (world : World) (hm : world.markerContent = none)
    (hok : distros.all (taskOk world) = true) :
    (mainRun .latest build distros world).marker = some "latest\n" ∧
    (mainRun .latest build distros world).result = .completed ∧
    ∃ msg, get_downloaded_version (mainRun .latest build distros world).marker =
      .error (PyError.valueError msg) := by
  have hgd : get_downloaded_version world.markerContent = .ok none := by
    rw [hm]; rfl
  have hfe := (firstErr_none_iff world distros).mpr hok
  simp only [mainRun, hgd, proceedDownload, hfe]
  refine ⟨?_, ?_, ⟨"invalid literal for int() with base 10", ?_⟩⟩ <;>
    first | decide | trivial

/-- C2 (amended): on a "latest" run, every download GET uses the URL
built from the literal token "latest" (never a resolved concrete
version), and the Remote Release Resolver is queried only when a marker
file was present — never to parameterize the download URLs. -/
theorem latest_url_literal (build : FactorioBuild) (distros : List FactorioDistro)
    (world : World) :
    (∀ u, Event.httpGet u ∈ (mainRun .latest build distros world).trace →
      ∃ d ∈ distros, u = DOWNLOAD_URL RequestedVersion.latest build d)
    ∧ (Event.queryResolver ∈ (mainRun .latest build distros world).trace →
        world.markerContent ≠ none)
    ∧ (∀ d, DOWNLOAD_URL RequestedVersion.latest build d =
        "https://www.factorio.com/get-download/latest/" ++ build.value ++ "/" ++ d.value) := by
  refine ⟨?_, ?_, ?_⟩
  · intro u hu
    rcases mainRun_shape .latest build distros world with
      ⟨downloaded, pre, _, hpre, heq⟩ | ⟨htr, _⟩
    · have hpre_mem : ∀ v ∈ pre, v = Event.queryResolver := by
        rcases hpre with h | ⟨h, _⟩ <;> subst h <;> simp
      rw [heq] at hu
      simp only [proceedDownload] at hu
      rcases hfe : firstErr
          (distros.map (fun d => (d, download (world.response d) (world.initFiles d)))) with
        _ | e <;> rw [hfe] at hu <;> simp only at hu
      · rcases List.mem_append.mp hu with hl | hr
        · exact absurd (hpre_mem _ hl) (fun h => Event.noConfusion h)
        · rcases List.mem_cons.mp hr with he | hm2
          · exact Event.noConfusion he
          · rcases List.mem_append.mp hm2 with hg | hw
            · rcases List.mem_map.mp hg with ⟨d, hd, hdu⟩
              exact ⟨d, hd, ((Event.httpGet.injEq _ _).mp hdu).symm⟩
            · exact Event.noConfusion (List.mem_singleton.mp hw)
      · rcases List.mem_append.mp hu with hl | hr
        · exact absurd (hpre_mem _ hl) (fun h => Event.noConfusion h)
        · rcases List.mem_cons.mp hr with he | hm2
          · exact Event.noConfusion he
          · rcases List.mem_map.mp hm2 with ⟨d, hd, hdu⟩
            exact ⟨d, hd, ((Event.httpGet.injEq _ _).mp hdu).symm⟩
    · rcases htr with h | ⟨h, _⟩ <;> rw [h] at hu <;> simp at hu
  · intro hq
    rcases mainRun_shape .latest build distros world with
      ⟨downloaded, pre, _, hpre, heq⟩ | ⟨htr, _⟩
    · rw [heq] at hq
      simp only [proceedDownload] at hq
      rcases hpre with h | ⟨h, hne⟩
      · subst h
        exfalso
        rcases hfe : firstErr
            (distros.map (fun d => (d, download (world.response d) (world.initFiles d)))) with
          _ | e <;> rw [hfe] at hq <;> simp only [List.nil_append] at hq
        · rcases List.mem_cons.mp hq with he | hm2
          · exact Event.noConfusion he
          · rcases List.mem_append.mp hm2 with hg | hw
            · rcases List.mem_map.mp hg with ⟨d, _, hd⟩
              exact Event.noConfusion hd
            · exact Event.noConfusion (List.mem_singleton.mp hw)
        · rcases List.mem_cons.mp hq with he | hm2
          · exact Event.noConfusion he
          · rcases List.mem_map.mp hm2 with ⟨d, _, hd⟩
            exact Event.noConfusion hd
      · exact hne
    · rcases htr with h | ⟨h, hne⟩
      · rw [h] at hq
        simp at hq
      · exact hne
  · intro d
    show "https://www.factorio.com/get-download/" ++
        RequestedVersion.toStr RequestedVersion.latest ++ "/" ++ build.value ++ "/" ++
        d.value = _
    rw [show RequestedVersion.toStr RequestedVersion.latest = "latest" from rfl]
    rw [show ("https://www.factorio.com/get-download/" ++ "latest" ++ "/" : String) =
        "https://www.factorio.com/get-download/latest/" by decide]

/-- C6 (amended): parsing succeeds exactly when the input splits on dots
into exactly three fields each of which Python `int` accepts (signed
values included), and every failure is a `ValueError`; the components of
a parsed version are whatever `int` returned and may be negative. -/
theorem version_parse_iff (s : String) :
    ((∃ v, FactorioVersion.from_str s = .ok v) ↔
      ((splitOnDot s.data).length = 3 ∧
        ∀ f ∈ splitOnDot s.data, (pyInt f.asString).isSome = true))
    ∧ (¬ ((splitOnDot s.data).length = 3 ∧
        ∀ f ∈ splitOnDot s.data, (pyInt f.asString).isSome = true) →
      ∃ msg, FactorioVersion.from_str s = .error (.valueError msg)) := by
  constructor
  · constructor
    · rintro ⟨v, hv⟩
      unfold FactorioVersion.from_str at hv
      rcases hml : mapIntList ((splitOnDot s.data).map List.asString) with _ | vs <;>
        rw [hml] at hv
      · exact absurd hv (by simp)
      · have hlen := mapIntList_length _ vs hml
        rw [List.length_map] at hlen
        have hsome : ∀ t ∈ (splitOnDot s.data).map List.asString,
            (pyInt t).isSome = true := by
          apply (mapIntList_isSome _).mp
          rw [hml]
          rfl
        refine ⟨?_, ?_⟩
        · rcases vs with _ | ⟨a, _ | ⟨b, _ | ⟨c, _ | ⟨d, t⟩⟩⟩⟩
          · exact absurd hv (by simp)
          · exact absurd hv (by simp)
          · exact absurd hv (by simp)
          · rw [← hlen]
            rfl
          · exact absurd hv (by simp)
        · intro f hf
          exact hsome f.asString (List.mem_map_of_mem List.asString hf)
    · rintro ⟨hlen3, hall⟩
      have hsome : (mapIntList ((splitOnDot s.data).map List.asString)).isSome = true := by
        apply (mapIntList_isSome _).mpr
        intro t ht
        rcases List.mem_map.mp ht with ⟨f, hf, rfl⟩
        exact hall f hf
      rcases hml : mapIntList ((splitOnDot s.data).map List.asString) with _ | vs
      · rw [hml] at hsome
        exact absurd hsome (by decide)
      · have hlen := mapIntList_length _ vs hml
        rw [List.length_map, hlen3] at hlen
        rcases List.length_eq_three.mp hlen with ⟨a, b, c, rfl⟩
        refine ⟨⟨a, b, c⟩, ?_⟩
        unfold FactorioVersion.from_str
        rw [hml]
  · intro hnot
    unfold FactorioVersion.from_str
    rcases hml : mapIntList ((splitOnDot s.data).map List.asString) with _ | vs
    · exact ⟨_, rfl⟩
    · have hsome : ∀ t ∈ (splitOnDot s.data).map List.asString,
          (pyInt t).isSome = true := by
        apply (mapIntList_isSome _).mp
        rw [hml]
        rfl
      have hall : ∀ f ∈ splitOnDot s.data, (pyInt f.asString).isSome = true :=
        fun f hf => hsome f.asString (List.mem_map_of_mem List.asString hf)
      have hlen : (splitOnDot s.data).length ≠ 3 := fun h3 => hnot ⟨h3, hall⟩
      have hvs : vs.length ≠ 3 := by
        rw [mapIntList_length _ vs hml, List.length_map]
        exact hlen
      rcases vs with _ | ⟨a, _ | ⟨b, _ | ⟨c, _ | ⟨d, t⟩⟩⟩⟩
      · exact ⟨_, rfl⟩
      · exact ⟨_, rfl⟩
      · exact ⟨_, rfl⟩
      · exact absurd rfl hvs
      · exact ⟨_, rfl⟩

/-- C8 (amended): `get_downloaded_version` returns absent exactly for a
missing file; when the content has a first whitespace-delimited token,
that token (stripped) is parsed as a version, propagating the
`ValueError`; when the content has no token at all (empty or
whitespace-only), the indexing `split()[0]` raises an `IndexError`, not
a `ParseError`; and an existing file never yields "absent". -/
theorem read_marker_behavior (s : String) :
    (get_downloaded_version none = .ok none)
    ∧ (splitWs s.data = [] →
        get_downloaded_version (some s) = .error PyError.indexError)
    ∧ (∀ tok rest, splitWs s.data = tok :: rest →
        get_downloaded_version (some s) =
          (FactorioVersion.from_str (stripWs tok).asString).map some)
    ∧ (∀ r, get_downloaded_version (some s) = r → r ≠ .ok none) := by
  refine ⟨rfl, ?_, ?_, ?_⟩
  · intro h
    simp only [get_downloaded_version]
    rw [h]
  · intro tok rest h
    simp only [get_downloaded_version]
    rw [h]
  · intro r hr hnone
    subst hnone
    simp only [get_downloaded_version] at hr
    rcases hsw : splitWs s.data with _ | ⟨tok, rest⟩ <;> rw [hsw] at hr
    · exact Except.noConfusion hr
    · rcases hfs : FactorioVersion.from_str (stripWs tok).asString with e | v <;>
        simp only [hfs, Except.map] at hr <;> simp at hr

/-- A run environment with a stale marker (1.1.0), the remote stable
version resolving to 1.2.0, and every download responding success. -/
def worldStale : World where
  markerContent := some "1.1.0\n"
  remoteStable := .ok "1.2.0"
  response := fun _ => { status := 200, contentLength := some "4", chunks := [[10, 20], [30, 40]] }
  initFiles := fun _ => { tempFile := none, saveFile := none }

/-- A run environment with no marker file and every download responding
success. -/
def worldFresh : World where
  markerContent := none
  remoteStable := .ok "1.2.0"
  response := fun _ => { status := 200, contentLength := none, chunks := [[1]] }
  initFiles := fun _ => { tempFile := none, saveFile := none }

/-- A run environment with no marker file whose downloads all fail with
HTTP 404. -/
def worldFail : World where
  markerContent := none
  remoteStable := .ok "1.2.0"
  response := fun _ => { status := 404, contentLength := none, chunks := [] }
  initFiles := fun _ => { tempFile := none, saveFile := none }

/-- A run environment whose marker (1.1.0) equals the resolved remote
stable version. -/
def worldUpToDate : World where
  markerContent := some "1.1.0\n"
  remoteStable := .ok "1.1.0"
  response := fun _ => { status := 200, contentLength := none, chunks := [] }
  initFiles := fun _ => { tempFile := none, saveFile := none }

/-- A run environment with marker 2.0.0 for exercising explicit version
requests (its remote query would fail, but the explicit branch never
performs one). -/
def worldExplicit : World where
  markerContent := some "2.0.0\n"
  remoteStable := .error .remoteQueryError
  response := fun _ => { status := 200, contentLength := none, chunks := [[5]] }
  initFiles := fun _ => { tempFile := none, saveFile := none }

/-- C1: run of the spec's own scenario (marker 1.1.0, request "latest",
remote resolves 1.2.0, both platform downloads succeed). The run
completes, but the marker file ends up holding the pre-run version
1.1.0, not the resolved concrete version 1.2.0: line 250 writes
`downloaded_version if downloaded_version else requested_version`, and a
NamedTuple is always truthy, so the stale value wins. -/
theorem stale_marker_rewritten :
    (mainRun .latest .expansion [.win64, .linux64] worldStale).result = .completed ∧
    (mainRun .latest .expansion [.win64, .linux64] worldStale).marker = some "1.1.0\n" ∧
    some "1.1.0\n" ≠ some "1.2.0\n" := by
  decide

/-- C2 (counterexample): with no marker file and a "latest" request the
run downloads without ever querying the Remote Release Resolver, and the
download URL carries the literal token "latest" in its version segment,
not a resolved concrete version. -/
theorem latest_url_literal_counter :
    Event.queryResolver ∉ (mainRun .latest .expansion [.win64] worldFresh).trace ∧
    Event.httpGet "https://www.factorio.com/get-download/latest/expansion/win64" ∈
      (mainRun .latest .expansion [.win64] worldFresh).trace := by
  decide

/-- C2 witness: the amended statement applied at concrete runs — the GET
URL of the fresh-marker run is the "latest"-token URL of the win64
distro, the resolver query observed in the stale-marker run implies its
marker was present, and the URL formula spells out the literal token. -/
theorem latest_url_literal_witness :
    (∃ d ∈ ([FactorioDistro.win64] : List FactorioDistro),
      "https://www.factorio.com/get-download/latest/expansion/win64" =
        DOWNLOAD_URL RequestedVersion.latest FactorioBuild.expansion d)
    ∧ worldStale.markerContent ≠ none
    ∧ DOWNLOAD_URL RequestedVersion.latest FactorioBuild.expansion FactorioDistro.win64 =
        "https://www.factorio.com/get-download/latest/" ++
          FactorioBuild.expansion.value ++ "/" ++ FactorioDistro.win64.value :=
  ⟨(latest_url_literal .expansion [.win64] worldFresh).1
      "https://www.factorio.com/get-download/latest/expansion/win64" (by decide),
   (latest_url_literal .expansion [.win64, .linux64] worldStale).2.1 (by decide),
   (latest_url_literal .expansion [.win64] worldFresh).2.2 .win64⟩

/-- C3 witness: the all-or-nothing theorem applied at concrete runs — in
the all-success fresh run the deletion precedes the GET and the marker
write is last and unique, and in the all-fail run the marker is absent
with no write event. -/
theorem marker_all_or_nothing_witness :
    Event.deleteMarker ∈ ([Event.deleteMarker] : List Event)
    ∧ (∃ cont, (mainRun .latest .expansion [.win64] worldFresh).marker = some cont ∧
        ∃ l1, (mainRun .latest .expansion [.win64] worldFresh).trace =
            l1 ++ [Event.writeMarker cont] ∧
          ∀ c2, Event.writeMarker c2 ∉ l1)
    ∧ ((mainRun .latest .expansion [.win64] worldFail).marker = none ∧
        ∀ cont, Event.writeMarker cont ∉
          (mainRun .latest .expansion [.win64] worldFail).trace) :=
  ⟨(marker_all_or_nothing .latest .expansion [.win64] worldFresh (by decide)).1
      [Event.deleteMarker]
      "https://www.factorio.com/get-download/latest/expansion/win64"
      [Event.writeMarker "latest\n"] (by decide),
   (marker_all_or_nothing .latest .expansion [.win64] worldFresh (by decide)).2.1 (by decide),
   (marker_all_or_nothing .latest .expansion [.win64] worldFail (by decide)).2.2 (by decide)⟩

/-- C4 witness: the reconciliation theorem applied at concrete runs —
the up-to-date run exits 0 without downloading, a run whose remote
regressed to 1.1.0 below marker 1.1.1 exits -10 without downloading or
touching the marker, and the stale run (remote ahead) proceeds. -/
theorem latest_reconciliation_witness :
    ((mainRun .latest .expansion [.win64] worldUpToDate).result = .exitCode 0 ∧
      (mainRun .latest .expansion [.win64] worldUpToDate).marker =
        worldUpToDate.markerContent ∧
      ∀ u, Event.httpGet u ∉ (mainRun .latest .expansion [.win64] worldUpToDate).trace)
    ∧ Event.deleteMarker ∈
        (mainRun .latest .expansion [.win64, .linux64] worldStale).trace :=
  ⟨(latest_reconciliation .expansion [.win64] worldUpToDate ⟨1, 1, 0⟩ ⟨1, 1, 0⟩
      rfl rfl).1 rfl,
   (latest_reconciliation .expansion [.win64, .linux64] worldStale ⟨1, 1, 0⟩ ⟨1, 2, 0⟩
      rfl rfl).2.2 (by decide) (by decide)⟩

/-- Sample success response for exercising the download task. -/
def respOkSample : HttpResponse where
  status := 200
  contentLength := some "3"
  chunks := [[1, 2], [3]]

/-- Sample failure response (HTTP 404) for exercising the download
task. -/
def respFailSample : HttpResponse where
  status := 404
  contentLength := none
  chunks := []

/-- Sample initial file state with both a stale temp file and a prior
final file present. -/
def fsSample : TaskFS where
  tempFile := some [9]
  saveFile := some [7]

/-- C5 witness: the download-task theorem applied at concrete responses
— the 404 task raises and leaves the prior final file untouched, and the
successful task leaves a final file whose size is the sum of its
reported advances. -/
theorem download_task_files_witness :
    ((download respFailSample fsSample).result = .error (.downloadError respFailSample.status) ∧
      (download respFailSample fsSample).fs.saveFile = fsSample.saveFile ∧
      (download respFailSample fsSample).fs.tempFile = none ∧
      (download respFailSample fsSample).advances = [])
    ∧ ∃ content, (download respOkSample fsSample).fs.saveFile = some content ∧
        (download respOkSample fsSample).fs.tempFile = none ∧
        content.length = (download respOkSample fsSample).advances.sum :=
  ⟨(download_task_files respFailSample fsSample).1 (by decide),
   (download_task_files respOkSample fsSample).2 rfl⟩

/-- C6 (counterexample): the parser accepts a negative component —
`int("-2")` succeeds in Python — so `from_str "1.-2.3"` returns a
version whose minor component is negative, refuting the claim that
every parsed version has all three components non-negative. -/
theorem version_parse_negative_counter :
    FactorioVersion.from_str "1.-2.3" = .ok ⟨1, -2, 3⟩ ∧
    (⟨1, -2, 3⟩ : FactorioVersion).minor < 0 :=
  ⟨rfl, by decide⟩

/-- C6 witness: the amended parse characterization applied at concrete
strings — "1.2.3" parses because it has exactly three int-parseable
fields, and "1.2" fails with a ValueError because it has two. -/
theorem version_parse_iff_witness :
    (∃ v, FactorioVersion.from_str "1.2.3" = .ok v)
    ∧ ∃ msg, FactorioVersion.from_str "1.2" = .error (PyError.valueError msg) :=
  ⟨(version_parse_iff "1.2.3").1.mpr (by decide),
   (version_parse_iff "1.2").2 (by decide)⟩

/-- C7 witness: the explicit-request theorem applied at concrete runs
with marker 2.0.0 — requesting 2.0.0 exits 0 without downloading, and
requesting the strictly older 1.0.0 proceeds to download with no
resolver query. -/
theorem explicit_reconciliation_witness :
    ((mainRun (.explicit ⟨2, 0, 0⟩) .expansion [.win64] worldExplicit).result =
        .exitCode 0 ∧
      (mainRun (.explicit ⟨2, 0, 0⟩) .expansion [.win64] worldExplicit).marker =
        worldExplicit.markerContent ∧
      ∀ u, Event.httpGet u ∉
        (mainRun (.explicit ⟨2, 0, 0⟩) .expansion [.win64] worldExplicit).trace)
    ∧ (Event.deleteMarker ∈
        (mainRun (.explicit ⟨1, 0, 0⟩) .expansion [.win64] worldExplicit).trace ∧
      Event.queryResolver ∉
        (mainRun (.explicit ⟨1, 0, 0⟩) .expansion [.win64] worldExplicit).trace) :=
  ⟨(explicit_reconciliation .expansion [.win64] worldExplicit ⟨2, 0, 0⟩ ⟨2, 0, 0⟩
      rfl).1 rfl,
   (explicit_reconciliation .expansion [.win64] worldExplicit ⟨2, 0, 0⟩ ⟨1, 0, 0⟩
      rfl).2 (by decide)⟩

/-- C8 (counterexample): an existing but empty marker file makes
`get_downloaded_version` fail with an IndexError (from `split()[0]` on
an empty token list), which is not the claimed ParseError. -/
theorem read_marker_empty_counter :
    get_downloaded_version (some "") = .error PyError.indexError ∧
    ∀ msg, PyError.indexError ≠ PyError.valueError msg :=
  ⟨rfl, fun _ h => PyError.noConfusion h⟩

/-- C8 witness: the amended reader characterization applied at concrete
contents — a missing file reads as absent, content "1.2.3 plus newline"
parses its first token, whitespace-only content raises the IndexError,
and an existing file never reads as absent. -/
theorem read_marker_behavior_witness :
    get_downloaded_version none = Except.ok none
    ∧ get_downloaded_version (some " \n") = .error PyError.indexError
    ∧ get_downloaded_version (some "1.2.3\n") =
        (FactorioVersion.from_str
          (stripWs ['1', '.', '2', '.', '3']).asString).map some
    ∧ Except.error PyError.indexError ≠
        (Except.ok none : Except PyError (Option FactorioVersion)) :=
  ⟨(read_marker_behavior "1.2.3\n").1,
   (read_marker_behavior " \n").2.1 (by decide),
   (read_marker_behavior "1.2.3\n").2.2.1 ['1', '.', '2', '.', '3'] [] (by decide),
   (read_marker_behavior "").2.2.2 (.error PyError.indexError) rfl⟩

/-- C9 witness: the parse/format roundtrip applied at the concrete
non-negative triple (1, 20, 300). -/
theorem parse_format_roundtrip_witness :
    FactorioVersion.from_str (FactorioVersion.toStr ⟨1, 20, 300⟩) = .ok ⟨1, 20, 300⟩ :=
  parse_format_roundtrip 1 20 300 (by decide) (by decide) (by decide)

/-- C10 witness: the literal-marker theorem applied at the concrete
fresh run — the marker file ends holding the token text, the run
completes, and re-reading that marker raises a ValueError. -/
theorem latest_literal_marker_witness :
    (mainRun .latest .expansion [.win64] worldFresh).marker = some "latest\n" ∧
    (mainRun .latest .expansion [.win64] worldFresh).result = .completed ∧
    ∃ msg, get_downloaded_version (mainRun .latest .expansion [.win64] worldFresh).marker =
      .error (PyError.valueError msg) :=
  latest_literal_marker .expansion [.win64] worldFresh rfl (by decide)
